import Mathlib

/-
Verification of the filtering-and-aggregation pipeline of the Netflix
Streamlit dashboard (src/app.py).  The pandas data frame is modelled as a
`List Entry`; each pandas column operation is translated row by row.
-/

namespace NetflixDash

/-- Calendar date, the result of a successful date parse.  Only the year
component is read downstream (`df["release_date"].dt.year`). -/
structure Date where
  year : Int
  month : Nat
  day : Nat
deriving DecidableEq, Repr

/-- One raw CSV row as produced by `pd.read_csv`: every field other than the
identifier may be missing (pandas `NaN` is modelled as `none`). -/
structure RawRow where
  show_id : String
  category : Option String
  type : Option String
  country : Option String
  rating : Option String
  release_date : Option String
  duration : Option String
deriving DecidableEq, Repr

/-- One canonical row after `load_data` (src/app.py lines 13-31). -/
structure Entry where
  show_id : String
  category : String
  type : String
  country : String
  rating : String
  release_date : Option Date
  year : Option Int
  duration : Option String
deriving DecidableEq, Repr

/-- Python `str.strip` on a character list: drop whitespace at both ends. -/
def trimSeq (l : List Char) : List Char :=
  ((l.dropWhile Char.isWhitespace).reverse.dropWhile Char.isWhitespace).reverse

/-- Python `str.strip` on strings (pandas `.str.strip()`). -/
def stripStr (s : String) : String := String.mk (trimSeq s.data)

/-- Pandas `astype(str)` on a possibly missing value: a missing value
renders as the literal text "nan". -/
def toStr : Option String → String
  | none => "nan"
  | some s => s

/-- One row of `load_data` (src/app.py lines 13-31): parse the release date
(absent or unparseable gives `none`), derive the year from the parsed date,
fill missing country with "Unknown" and missing rating with "Unrated", and
coerce category and type to stripped strings.  The date parser itself
(pandas `to_datetime`) is an external library and is passed as a
parameter. -/
def normalizeRow (parseDate : String → Option Date) (r : RawRow) : Entry :=
  let d := r.release_date.bind parseDate
  { show_id := r.show_id
    category := stripStr (toStr r.category)
    type := stripStr (toStr r.type)
    country := r.country.getD "Unknown"
    rating := r.rating.getD "Unrated"
    release_date := d
    year := d.map Date.year
    duration := r.duration }

/-- `load_data`: normalize every raw row; no row is dropped. -/
def load_data (parseDate : String → Option Date) (rows : List RawRow) : List Entry :=
  rows.map (normalizeRow parseDate)

/-- Does `s` start with `pat`?  Scanner used to realise substring search. -/
def leadsWith : List Char → List Char → Bool
  | [], _ => true
  | _ :: _, [] => false
  | a :: as, b :: bs => a == b && leadsWith as bs

/-- Does `pat` occur contiguously inside the second list?  Realises the
containment test of pandas `str.contains` on literal patterns by checking
`pat` as a head segment at every suffix. -/
def containsSeq (pat : List Char) : List Char → Bool
  | [] => leadsWith pat []
  | c :: rest => leadsWith pat (c :: rest) || containsSeq pat rest

/-- Pandas `Series.str.contains(pat)` on one cell (literal containment). -/
def strContains (s pat : String) : Bool := containsSeq pat.data s.data

/-- Year predicate of src/app.py line 66: missing years are filled with 0
(`fillna(0)`) before the inclusive range comparison. -/
def yearPass (y : Option Int) (lo hi : Int) : Bool :=
  decide (y.getD 0 ≥ lo) && decide (y.getD 0 ≤ hi)

/-- The sidebar filter state: a year range plus four facet choices, where
the literal "All" means the facet is inactive. -/
structure FilterSelection where
  yearLo : Int
  yearHi : Int
  category : String
  rating : String
  country : String
  genre : String
deriving DecidableEq, Repr

/-- The filter cascade of src/app.py lines 64-79, applied in source order:
year range, then (when active) category equality, rating equality, country
containment and genre containment. -/
def applyFilters (ds : List Entry) (sel : FilterSelection) : List Entry :=
  let f0 := ds.filter (fun e => yearPass e.year sel.yearLo sel.yearHi)
  let f1 := if sel.category ≠ "All" then
      f0.filter (fun e => e.category == sel.category) else f0
  let f2 := if sel.rating ≠ "All" then
      f1.filter (fun e => e.rating == sel.rating) else f1
  let f3 := if sel.country ≠ "All" then
      f2.filter (fun e => strContains e.country sel.country) else f2
  if sel.genre ≠ "All" then
    f3.filter (fun e => strContains e.type sel.genre) else f3

theorem leadsWith_iff (pat s : List Char) :
    leadsWith pat s = true ↔ ∃ r, pat ++ r = s := by
  induction pat generalizing s with
  | nil => simp [leadsWith]
  | cons a as ih =>
    cases s with
    | nil => simp [leadsWith]
    | cons b bs =>
      simp only [leadsWith, Bool.and_eq_true, beq_iff_eq, ih]
      constructor
      · rintro ⟨hab, r, hr⟩
        exact ⟨r, by simp [hab, hr]⟩
      · rintro ⟨r, hr⟩
        rw [List.cons_append] at hr
        injection hr with h1 h2
        exact ⟨h1, r, h2⟩

theorem containsSeq_iff (pat s : List Char) :
    containsSeq pat s = true ↔ ∃ l r, l ++ pat ++ r = s := by
  induction s with
  | nil =>
    simp only [containsSeq, leadsWith_iff]
    constructor
    · rintro ⟨r, hr⟩
      exact ⟨[], r, by simp [hr]⟩
    · rintro ⟨l, r, hlr⟩
      rcases List.append_eq_nil.mp hlr with ⟨h1, h2⟩
      rcases List.append_eq_nil.mp h1 with ⟨h3, h4⟩
      exact ⟨r, by simp [h4, h2]⟩
  | cons c rest ih =>
    simp only [containsSeq, Bool.or_eq_true, leadsWith_iff, ih]
    constructor
    · rintro (⟨r, hr⟩ | ⟨l, r, hlr⟩)
      · exact ⟨[], r, by simpa using hr⟩
      · exact ⟨c :: l, r, by simp [hlr]⟩
    · rintro ⟨l, r, hlr⟩
      cases l with
      | nil => exact Or.inl ⟨r, by simpa using hlr⟩
      | cons x xs =>
        rw [List.cons_append, List.cons_append] at hlr
        injection hlr with h1 h2
        exact Or.inr ⟨xs, r, h2⟩

theorem mem_filterIf {c : Prop} [Decidable c] {l : List Entry}
    {p : Entry → Bool} {e : Entry} :
    e ∈ (if c then l.filter p else l) ↔ e ∈ l ∧ (c → p e = true) := by
  split_ifs with h
  · simp [List.mem_filter, h]
  · simp [h]

/-- C1: an entry is in the filtered result exactly when it is in the
dataset and every active predicate (year range, and category, rating,
country, genre when the choice is not "All") holds for it. -/
theorem filter_conjunctive_correct (ds : List Entry) (sel : FilterSelection)
    (e : Entry) :
    e ∈ applyFilters ds sel ↔
      e ∈ ds ∧
      yearPass e.year sel.yearLo sel.yearHi = true ∧
      (sel.category ≠ "All" → e.category = sel.category) ∧
      (sel.rating ≠ "All" → e.rating = sel.rating) ∧
      (sel.country ≠ "All" → strContains e.country sel.country = true) ∧
      (sel.genre ≠ "All" → strContains e.type sel.genre = true) := by
  simp only [applyFilters, mem_filterIf, List.mem_filter, beq_iff_eq]
  tauto

/-- Sample entry, used to instantiate universally quantified theorems. -/
def baseEntry : Entry :=
  { show_id := "s1", category := "Movie", type := "Dramas"
    country := "United States", rating := "TV-MA", release_date := none
    year := some 2020, duration := none }

/-- Selection with every facet inactive and a wide year range. -/
def allSel : FilterSelection := ⟨0, 3000, "All", "All", "All", "All"⟩

/-- C2: the year predicate holds exactly when the year, with 0 substituted
for a missing value, lies inside the inclusive selected range; an entry
with a missing year passes exactly when 0 lies inside the range. -/
theorem year_predicate_correct (e : Entry) (lo hi : Int) :
    (yearPass e.year lo hi = true ↔ lo ≤ e.year.getD 0 ∧ e.year.getD 0 ≤ hi) ∧
    (e.year = none → (yearPass e.year lo hi = true ↔ lo ≤ 0 ∧ 0 ≤ hi)) := by
  constructor
  · simp [yearPass, ge_iff_le]
  · intro h
    simp [yearPass, h, ge_iff_le]

/-- C3: the country predicate holds exactly when the selected value occurs
contiguously inside the raw comma-joined country string, and the genre
predicate applies the same containment test to the raw type string; in
particular the country cell "United States, India" matches the selected
country "India". -/
theorem substring_predicate_correct (e : Entry) (choice : String) :
    (strContains e.country choice = true ↔
      ∃ l r, l ++ choice.data ++ r = e.country.data) ∧
    (strContains e.type choice = true ↔
      ∃ l r, l ++ choice.data ++ r = e.type.data) ∧
    strContains "United States, India" "India" = true :=
  ⟨containsSeq_iff choice.data e.country.data,
   containsSeq_iff choice.data e.type.data, by decide⟩

/-- Category column of the filtered frame. -/
def categoriesOf (l : List Entry) : List String := l.map Entry.category

/-- Share of one category among the rows of `l`, scaled to 0-100: the
value of `value_counts(normalize=True).get(c, 0) * 100` (src/app.py lines
87-88); an absent category and an empty frame both give 0. -/
def categoryShare (l : List Entry) (c : String) : ℚ :=
  (((categoriesOf l).count c : ℚ) / (l.length : ℚ)) * 100

def movie_pct (l : List Entry) : ℚ := categoryShare l "Movie"

def tv_pct (l : List Entry) : ℚ := categoryShare l "TV Show"

/-- Floor of a rational, computed as floor division of the numerator by
the denominator (proved equal to `Int.floor` below). -/
def floorQ (x : ℚ) : ℤ := Int.fdiv x.num (x.den : ℤ)

/-- Fractional part of a rational, computed from `floorQ`. -/
def fractQ (x : ℚ) : ℚ := x - (floorQ x : ℚ)

/-- Round to the nearest integer, ties to the even neighbour: the rule
numpy and pandas `round` use. -/
def roundHalfEven (x : ℚ) : ℤ :=
  if fractQ x < 1 / 2 then floorQ x
  else if 1 / 2 < fractQ x then floorQ x + 1
  else if floorQ x % 2 = 0 then floorQ x else floorQ x + 1

/-- Pandas `.round(1)`: round to one decimal place, ties to even. -/
def round1 (x : ℚ) : ℚ := (roundHalfEven (10 * x) : ℚ) / 10

/-- All category percentages as charted (src/app.py line 99, including
the `.round(1)`): one pair per distinct category value, each share
rounded to one decimal. -/
def categoryPercentages (l : List Entry) : List (String × ℚ) :=
  (categoriesOf l).dedup.map (fun c => (c, round1 (categoryShare l c)))

theorem sum_map_addSplit (ks : List String) (f g : String → Nat) :
    (ks.map (fun k => f k + g k)).sum = (ks.map f).sum + (ks.map g).sum := by
  induction ks with
  | nil => simp
  | cons k t ih =>
    simp only [List.map_cons, List.sum_cons, ih]
    omega

theorem sum_indicator (l : List String) (x : String) :
    (l.map (fun k => if x == k then 1 else 0)).sum = l.count x := by
  induction l with
  | nil => simp
  | cons a t ih =>
    simp only [List.map_cons, List.sum_cons, ih, List.count_cons]
    by_cases h : a = x
    · simp [h, Nat.add_comm]
    · have h1 : (x == a) = false := by simpa using (Ne.symm h)
      have h2 : (a == x) = false := by simpa using h
      simp [h1, h2]

theorem sum_count_dedup (xs : List String) :
    (xs.dedup.map (fun k => xs.count k)).sum = xs.length := by
  induction xs with
  | nil => simp
  | cons x t ih =>
    have hfun : (fun k => (x :: t).count k) =
        (fun k => t.count k + if x == k then 1 else 0) := by
      funext k
      rw [List.count_cons]
    by_cases hx : x ∈ t
    · rw [List.dedup_cons_of_mem hx, hfun, sum_map_addSplit, ih, sum_indicator,
        List.count_dedup]
      simp [hx]
    · rw [List.dedup_cons_of_not_mem hx]
      simp only [List.map_cons, List.sum_cons, hfun]
      rw [sum_map_addSplit, ih, sum_indicator, List.count_dedup,
        List.count_eq_zero_of_not_mem hx]
      simp [hx]
      omega

theorem sum_map_mulConst (ks : List String) (f : String → ℚ) (c : ℚ) :
    (ks.map (fun k => f k * c)).sum = (ks.map f).sum * c := by
  induction ks with
  | nil => simp
  | cons k t ih => simp [ih, add_mul]

theorem sum_shares_eq (l : List Entry) (h : l ≠ []) :
    ((categoriesOf l).dedup.map (fun c => categoryShare l c)).sum = 100 := by
  have hn : (l.length : ℚ) ≠ 0 := by
    simpa [List.length_eq_zero] using h
  have h1 : (categoriesOf l).dedup.map (fun c => categoryShare l c) =
      (categoriesOf l).dedup.map
        (fun c => (((categoriesOf l).count c : ℚ)) * (100 / (l.length : ℚ))) := by
    refine List.map_congr_left ?_
    intro c _
    unfold categoryShare
    rw [div_mul_eq_mul_div, mul_div_assoc]
  rw [h1, sum_map_mulConst]
  have h2 : ((categoriesOf l).dedup.map
      (fun c => (((categoriesOf l).count c : ℚ)))).sum
      = (((categoriesOf l).dedup.map
          (fun c => (categoriesOf l).count c)).sum : ℚ) := by
    rw [Nat.cast_list_sum, List.map_map]
    rfl
  rw [h2, sum_count_dedup]
  have h3 : (categoriesOf l).length = l.length := List.length_map _ _
  rw [h3]
  field_simp

theorem floorQ_eq (x : ℚ) : floorQ x = ⌊x⌋ := by
  rw [Rat.floor_def, floorQ]
  exact Int.fdiv_eq_ediv _ (by exact_mod_cast Nat.zero_le x.den)

theorem fractQ_eq (x : ℚ) : fractQ x = Int.fract x := by
  rw [fractQ, floorQ_eq]
  exact Int.self_sub_floor x

theorem abs_roundHalfEven_sub (x : ℚ) :
    |(roundHalfEven x : ℚ) - x| ≤ 1 / 2 := by
  have h0 : 0 ≤ Int.fract x := Int.fract_nonneg x
  have h1 : Int.fract x < 1 := Int.fract_lt_one x
  have hfl : (⌊x⌋ : ℚ) + Int.fract x = x := Int.floor_add_fract x
  unfold roundHalfEven
  simp only [floorQ_eq, fractQ_eq]
  split_ifs with hlt hgt hev
  · rw [abs_le]
    constructor <;> linarith
  · rw [abs_le]
    push_cast
    constructor <;> linarith
  · have heq : Int.fract x = 1 / 2 := le_antisymm (not_lt.mp hgt) (not_lt.mp hlt)
    rw [abs_le]
    constructor <;> linarith
  · have heq : Int.fract x = 1 / 2 := le_antisymm (not_lt.mp hgt) (not_lt.mp hlt)
    rw [abs_le]
    push_cast
    constructor <;> linarith

theorem abs_round1_sub (x : ℚ) : |round1 x - x| ≤ 1 / 20 := by
  have h := abs_roundHalfEven_sub (10 * x)
  unfold round1
  have hdiv : (roundHalfEven (10 * x) : ℚ) / 10 - x
      = ((roundHalfEven (10 * x) : ℚ) - 10 * x) / 10 := by ring
  rw [hdiv, abs_div]
  have h10 : |(10 : ℚ)| = 10 := by norm_num
  rw [h10]
  linarith

theorem sum_approx (ks : List String) (f g : String → ℚ) (b : ℚ)
    (hb : ∀ c ∈ ks, |f c - g c| ≤ b) :
    |(ks.map f).sum - (ks.map g).sum| ≤ ks.length * b := by
  induction ks with
  | nil => simp
  | cons c t ih =>
    have h1 := hb c (by simp)
    have h2 := ih (fun d hd => hb d (by simp [hd]))
    simp only [List.map_cons, List.sum_cons, List.length_cons]
    have hsplit : f c + (t.map f).sum - (g c + (t.map g).sum)
        = (f c - g c) + ((t.map f).sum - (t.map g).sum) := by ring
    rw [hsplit]
    calc |(f c - g c) + ((t.map f).sum - (t.map g).sum)|
        ≤ |f c - g c| + |(t.map f).sum - (t.map g).sum| := abs_add _ _
      _ ≤ b + t.length * b := add_le_add h1 h2
      _ = ((t.length : ℚ) + 1) * b := by ring
      _ = ((t.length + 1 : ℕ) : ℚ) * b := by push_cast; ring

/-- C4 (amended): for a non-empty filtered subset with at most two
distinct category values (the observed Movie / TV Show domain) the
rounded category percentages of src/app.py line 99 sum to 100 within the
0.1 tolerance: the unrounded shares sum to exactly 100 and each
`.round(1)` moves a share by at most 0.05. -/
theorem percentage_invariant_rounded (ds : List Entry)
    (sel : FilterSelection) (h : applyFilters ds sel ≠ [])
    (hk : (categoriesOf (applyFilters ds sel)).dedup.length ≤ 2) :
    |((categoryPercentages (applyFilters ds sel)).map Prod.snd).sum - 100| ≤
      1 / 10 := by
  set f := applyFilters ds sel with hf
  have hmap : (categoryPercentages f).map Prod.snd
      = (categoriesOf f).dedup.map (fun c => round1 (categoryShare f c)) := by
    unfold categoryPercentages
    rw [List.map_map]
    rfl
  rw [hmap]
  have h100 := sum_shares_eq f h
  have happrox := sum_approx (categoriesOf f).dedup
    (fun c => round1 (categoryShare f c)) (fun c => categoryShare f c)
    (1 / 20) (fun c _ => abs_round1_sub (categoryShare f c))
  rw [h100] at happrox
  have hcast : ((categoriesOf f).dedup.length : ℚ) ≤ 2 := by
    exact_mod_cast hk
  have hb : ((categoriesOf f).dedup.length : ℚ) * (1 / 20) ≤ 2 * (1 / 20) := by
    linarith
  linarith

/-- Entry with a given category, all other fields fixed. -/
def mkCat (c : String) : Entry := { baseEntry with category := c }

/-- Six rows in six distinct categories: every share is
100/6 = 16.666...%, which `.round(1)` rounds up to 16.7. -/
def sixCatDs : List Entry :=
  [mkCat "m1", mkCat "m2", mkCat "m3", mkCat "m4", mkCat "m5", mkCat "m6"]

/-- C4 fails as stated on the code once more than two categories occur:
on six filtered rows in six distinct categories every rounded percentage
is 16.7, so the sum is 100.2, outside the 0.1 tolerance. -/
theorem roundHalfEven_eq_up (x : ℚ) (q : ℤ) (hlo : (q : ℚ) + 1 / 2 < x)
    (hhi : x < q + 1) : roundHalfEven x = q + 1 := by
  have hfl : ⌊x⌋ = q := Int.floor_eq_iff.mpr ⟨by linarith, hhi⟩
  have hfr : 1 / 2 < Int.fract x := by
    have hs := Int.self_sub_floor x
    rw [← hs, hfl]
    linarith
  unfold roundHalfEven
  simp only [fractQ_eq, floorQ_eq]
  rw [if_neg (by linarith), if_pos hfr, hfl]

theorem percentage_rounded_counterexample :
    applyFilters sixCatDs allSel ≠ [] ∧
    ¬ (|((categoryPercentages (applyFilters sixCatDs allSel)).map
          Prod.snd).sum - 100| ≤ 1 / 10) := by
  have hfeq : applyFilters sixCatDs allSel = sixCatDs := by decide
  rw [hfeq]
  refine ⟨by decide, ?_⟩
  have hcats : (categoriesOf sixCatDs).dedup =
      ["m1", "m2", "m3", "m4", "m5", "m6"] := by
    decide
  have hlen : sixCatDs.length = 6 := by decide
  have hshare : ∀ c : String, (categoriesOf sixCatDs).count c = 1 →
      categoryShare sixCatDs c = 50 / 3 := by
    intro c hc
    unfold categoryShare
    rw [hc, hlen]
    norm_num
  have hs1 : categoryShare sixCatDs "m1" = 50 / 3 := hshare _ (by decide)
  have hs2 : categoryShare sixCatDs "m2" = 50 / 3 := hshare _ (by decide)
  have hs3 : categoryShare sixCatDs "m3" = 50 / 3 := hshare _ (by decide)
  have hs4 : categoryShare sixCatDs "m4" = 50 / 3 := hshare _ (by decide)
  have hs5 : categoryShare sixCatDs "m5" = 50 / 3 := hshare _ (by decide)
  have hs6 : categoryShare sixCatDs "m6" = 50 / 3 := hshare _ (by decide)
  have hr : round1 (50 / 3) = 167 / 10 := by
    have h := roundHalfEven_eq_up (10 * (50 / 3)) 166 (by norm_num)
      (by norm_num)
    rw [round1, h]
    norm_num
  have hsum : ((categoryPercentages sixCatDs).map Prod.snd).sum = 501 / 5 := by
    unfold categoryPercentages
    rw [hcats]
    simp only [List.map_cons, List.map_nil, List.sum_cons, List.sum_nil]
    rw [hs1, hs2, hs3, hs4, hs5, hs6, hr]
    norm_num
  rw [hsum, show (501 / 5 : ℚ) - 100 = 1 / 5 by norm_num,
    abs_of_pos (by norm_num : (0 : ℚ) < 1 / 5)]
  norm_num

/-- Closed instance of C4 (amended): the all-pass selection on a
one-entry dataset has one category and its rounded percentages sum
inside tolerance. -/
theorem percentage_invariant_rounded_witness :
    applyFilters [baseEntry] allSel ≠ [] ∧
    (categoriesOf (applyFilters [baseEntry] allSel)).dedup.length ≤ 2 ∧
    |((categoryPercentages (applyFilters [baseEntry] allSel)).map
        Prod.snd).sum - 100| ≤ 1 / 10 :=
  ⟨by decide, by decide,
   percentage_invariant_rounded [baseEntry] allSel (by decide) (by decide)⟩

/-- Python `str.split(",")` on a character list: the list of segments
between commas.  Always produces at least one segment. -/
def splitComma : List Char → List (List Char)
  | [] => [[]]
  | c :: rest =>
    if c = ',' then [] :: splitComma rest
    else
      match splitComma rest with
      | [] => [[c]]
      | p :: ps => (c :: p) :: ps

/-- Pandas `.str.split(",")` followed by `.str.strip()` on one cell. -/
def splitStrip (s : String) : List String :=
  (splitComma s.data).map (fun p => String.mk (trimSeq p))

/-- The exploded country column (src/app.py line 127): every filtered row
contributes one element per comma-separated country. -/
def explodedCountries (l : List Entry) : List String :=
  l.flatMap (fun e => splitStrip e.country)

/-- The exploded genre column (src/app.py line 141). -/
def explodedGenres (l : List Entry) : List String :=
  l.flatMap (fun e => splitStrip e.type)

/-- Insert a keyed count into a descending-by-count list, keeping earlier
elements first on ties. -/
def insDesc (p : String × Nat) : List (String × Nat) → List (String × Nat)
  | [] => [p]
  | q :: qs => if p.2 ≤ q.2 then q :: insDesc p qs else p :: q :: qs

/-- Stable sort by count, descending: the order `value_counts` reports. -/
def sortDesc : List (String × Nat) → List (String × Nat)
  | [] => []
  | p :: ps => insDesc p (sortDesc ps)

/-- Pandas `value_counts`: one pair per distinct value with its number of
occurrences, ordered by descending count. -/
def value_counts (xs : List String) : List (String × Nat) :=
  sortDesc (xs.dedup.map (fun k => (k, xs.count k)))

/-- `top_countries` of src/app.py lines 126-129: the ten largest exploded
country counts. -/
def top_countries (l : List Entry) : List (String × Nat) :=
  (value_counts (explodedCountries l)).take 10

/-- `top_genres` of src/app.py lines 140-143. -/
def top_genres (l : List Entry) : List (String × Nat) :=
  (value_counts (explodedGenres l)).take 10

/-- Sum of the counts of a keyed count table. -/
def sumValues (ps : List (String × Nat)) : Nat := (ps.map Prod.snd).sum

/-- The insight lookup `top_countries.index[0] if len(top_countries) else
"N/A"` (src/app.py line 157). -/
def topCountryLabel (l : List Entry) : String :=
  ((top_countries l).head?.map Prod.fst).getD "N/A"

/-- The insight lookup `top_genres.index[-1] if len(top_genres) else
"N/A"` (src/app.py line 158). -/
def topGenreLabel (l : List Entry) : String :=
  ((top_genres l).getLast?.map Prod.fst).getD "N/A"

/-- Insert into an ascending list of years. -/
def insAsc (x : Int) : List Int → List Int
  | [] => [x]
  | y :: ys => if x ≤ y then x :: y :: ys else y :: insAsc x ys

/-- Sort years ascending (`sort_index()` of src/app.py line 111). -/
def sortAsc : List Int → List Int
  | [] => []
  | x :: xs => insAsc x (sortAsc xs)

/-- Year column with missing values dropped, as `groupby("year")` does. -/
def yearsOf (l : List Entry) : List Int := l.filterMap Entry.year

/-- `titles_by_year` (src/app.py line 111): count per present year, keys
ascending; rows with a missing year are not counted anywhere. -/
def titlesByYear (l : List Entry) : List (Int × Nat) :=
  (sortAsc (yearsOf l).dedup).map (fun y => (y, (yearsOf l).count y))

/-- The aggregate bundle a rendering layer reads. -/
structure FilteredView where
  titleCountFiltered : Nat
  titleCountTotal : Nat
  moviePct : ℚ
  tvPct : ℚ
  categoryPct : List (String × ℚ)
  byYear : List (Int × Nat)
  topCountries : List (String × Nat)
  topGenres : List (String × Nat)
  topCountry : String
  topGenre : String

/-- The whole engine pass: the dataset handle together with the view it
derives.  The first component is the dataset the process keeps using after
the pass (the code filters a copy, src/app.py line 64). -/
def runEngine (ds : List Entry) (sel : FilterSelection) :
    List Entry × FilteredView :=
  let f := applyFilters ds sel
  (ds,
   { titleCountFiltered := f.length
     titleCountTotal := ds.length
     moviePct := movie_pct f
     tvPct := tv_pct f
     categoryPct := categoryPercentages f
     byYear := titlesByYear f
     topCountries := top_countries f
     topGenres := top_genres f
     topCountry := topCountryLabel f
     topGenre := topGenreLabel f })

theorem splitComma_ne_nil (l : List Char) : splitComma l ≠ [] := by
  induction l with
  | nil => simp [splitComma]
  | cons c rest ih =>
    rw [splitComma]
    split_ifs
    · simp
    · cases h : splitComma rest <;> simp

theorem length_splitComma (l : List Char) :
    (splitComma l).length = l.count ',' + 1 := by
  induction l with
  | nil => simp [splitComma]
  | cons c rest ih =>
    by_cases hc : c = ','
    · rw [splitComma, if_pos hc, List.count_cons]
      simp [ih, hc]
    · rw [splitComma, if_neg hc, List.count_cons]
      have hcb : (c == ',') = false := by simpa using hc
      cases h : splitComma rest with
      | nil => exact absurd h (splitComma_ne_nil rest)
      | cons p ps =>
        rw [h] at ih
        simp [hcb] at ih ⊢
        omega

theorem length_splitStrip (s : String) :
    (splitStrip s).length = s.data.count ',' + 1 := by
  rw [splitStrip, List.length_map, length_splitComma]

theorem splitStrip_ne_nil (s : String) : splitStrip s ≠ [] := by
  intro hc
  have := congrArg List.length hc
  rw [length_splitStrip] at this
  simp at this

theorem insDesc_perm (p : String × Nat) (qs : List (String × Nat)) :
    List.Perm (insDesc p qs) (p :: qs) := by
  induction qs with
  | nil => exact List.Perm.refl _
  | cons q qs ih =>
    rw [insDesc]
    split_ifs
    · exact (ih.cons q).trans (List.Perm.swap p q qs)
    · exact List.Perm.refl _

theorem sortDesc_perm (ps : List (String × Nat)) :
    List.Perm (sortDesc ps) ps := by
  induction ps with
  | nil => exact List.Perm.refl _
  | cons p ps ih => exact (insDesc_perm p (sortDesc ps)).trans (ih.cons p)

theorem sumValues_value_counts (xs : List String) :
    sumValues (value_counts xs) = xs.length := by
  unfold sumValues value_counts
  rw [((sortDesc_perm (xs.dedup.map (fun k => (k, xs.count k)))).map
    Prod.snd).sum_eq, List.map_map]
  exact sum_count_dedup xs

theorem length_explodedCountries (l : List Entry) :
    (explodedCountries l).length =
      (l.map (fun e => (splitStrip e.country).length)).sum := by
  induction l with
  | nil => rfl
  | cons e rest ih =>
    simp only [explodedCountries, List.flatMap_cons, List.length_append,
      List.map_cons, List.sum_cons] at ih ⊢
    rw [ih]

theorem sum_ge_length (ns : List Nat) (h : ∀ n ∈ ns, 1 ≤ n) :
    ns.length ≤ ns.sum ∧ (ns.sum = ns.length ↔ ∀ n ∈ ns, n = 1) := by
  induction ns with
  | nil => simp
  | cons n t ih =>
    have hn : 1 ≤ n := h n (by simp)
    have ht := ih (fun m hm => h m (by simp [hm]))
    simp only [List.length_cons, List.sum_cons, List.mem_cons]
    constructor
    · omega
    · constructor
      · intro he
        have h1 : n = 1 ∧ t.sum = t.length := by omega
        intro m hm
        rcases hm with hm | hm
        · omega
        · exact ht.2.mp h1.2 m hm
      · intro hall
        have h1 : n = 1 := hall n (Or.inl rfl)
        have h2 : t.sum = t.length := ht.2.mpr (fun m hm => hall m (Or.inr hm))
        omega

/-- C5 (amended): when the exploded country table has at most ten rows
(so that `head(10)` keeps all of it), the top-country counts sum to at
least the filtered title count, and the sum equals the count exactly when
every filtered entry has a single country. -/
theorem exploded_count_invariant (ds : List Entry) (sel : FilterSelection)
    (h10 : (value_counts (explodedCountries (applyFilters ds sel))).length ≤ 10) :
    (applyFilters ds sel).length ≤
      sumValues (top_countries (applyFilters ds sel)) ∧
    (sumValues (top_countries (applyFilters ds sel)) =
        (applyFilters ds sel).length ↔
      ∀ e ∈ applyFilters ds sel, (splitStrip e.country).length = 1) := by
  set f := applyFilters ds sel with hf
  have htake : top_countries f = value_counts (explodedCountries f) := by
    unfold top_countries
    exact List.take_of_length_le h10
  rw [htake, sumValues_value_counts, length_explodedCountries]
  have hpos : ∀ n ∈ f.map (fun e => (splitStrip e.country).length), 1 ≤ n := by
    intro n hn
    rcases List.mem_map.mp hn with ⟨e, _, rfl⟩
    rw [length_splitStrip]
    omega
  have hmain := sum_ge_length (f.map (fun e => (splitStrip e.country).length))
    hpos
  rw [List.length_map] at hmain
  refine ⟨hmain.1, hmain.2.trans ?_⟩
  constructor
  · intro hall e he
    exact hall _ (List.mem_map.mpr ⟨e, he, rfl⟩)
  · intro hall n hn
    rcases List.mem_map.mp hn with ⟨e, he, rfl⟩
    exact hall e he

/-- Entry with a given country cell, all other fields fixed. -/
def mkC (c : String) : Entry := { baseEntry with country := c }

/-- Twelve filtered rows spread over thirteen exploded countries: more
buckets than `head(10)` keeps. -/
def manyCountriesDs : List Entry :=
  [mkC "c1", mkC "c2", mkC "c3", mkC "c4", mkC "c5", mkC "c6", mkC "c7",
   mkC "c8", mkC "c9", mkC "cA", mkC "cB", mkC "A, B"]

/-- C5 fails as stated on the code: with twelve filtered rows over
thirteen exploded countries, one row listing two countries, the sum of
the `head(10)` counts is 10, strictly below the filtered title count. -/
theorem exploded_count_counterexample :
    (∃ e ∈ applyFilters manyCountriesDs allSel,
      1 < (splitStrip e.country).length) ∧
    ¬ ((applyFilters manyCountriesDs allSel).length ≤
        sumValues (top_countries (applyFilters manyCountriesDs allSel))) := by
  decide

/-- Closed instance of C5 (amended): two rows, three exploded countries. -/
theorem exploded_count_invariant_witness :
    (value_counts (explodedCountries (applyFilters
      [mkC "United States", mkC "India, United States"] allSel))).length ≤ 10 ∧
    ((applyFilters [mkC "United States", mkC "India, United States"]
        allSel).length ≤
      sumValues (top_countries (applyFilters
        [mkC "United States", mkC "India, United States"] allSel)) ∧
    (sumValues (top_countries (applyFilters
        [mkC "United States", mkC "India, United States"] allSel)) =
        (applyFilters [mkC "United States", mkC "India, United States"]
          allSel).length ↔
      ∀ e ∈ applyFilters [mkC "United States", mkC "India, United States"]
        allSel, (splitStrip e.country).length = 1)) :=
  ⟨by decide, exploded_count_invariant
    [mkC "United States", mkC "India, United States"] allSel (by decide)⟩

/-- Selection whose year window [0, 0] excludes the sample entry. -/
def noMatchSel : FilterSelection := ⟨0, 0, "All", "All", "All", "All"⟩

/-- C6: a selection matching zero entries gives count 0, empty percentage
and year tables, zero shares, empty top tables, and both insight lookups
resolve to the fallback label, with no failure anywhere. -/
theorem empty_subset_safety (ds : List Entry) (sel : FilterSelection)
    (h : applyFilters ds sel = []) :
    (runEngine ds sel).2.titleCountFiltered = 0 ∧
    (runEngine ds sel).2.categoryPct = [] ∧
    (runEngine ds sel).2.moviePct = 0 ∧
    (runEngine ds sel).2.tvPct = 0 ∧
    (runEngine ds sel).2.byYear = [] ∧
    (runEngine ds sel).2.topCountries = [] ∧
    (runEngine ds sel).2.topGenres = [] ∧
    (runEngine ds sel).2.topCountry = "N/A" ∧
    (runEngine ds sel).2.topGenre = "N/A" := by
  simp only [runEngine, h]
  refine ⟨rfl, rfl, ?_, ?_, rfl, rfl, rfl, rfl, rfl⟩
  · simp [movie_pct, categoryShare, categoriesOf]
  · simp [tv_pct, categoryShare, categoriesOf]

/-- Closed instance of C6 at a one-entry dataset and a selection whose
year window excludes it. -/
theorem empty_subset_safety_witness :
    applyFilters [baseEntry] noMatchSel = [] ∧
    ((runEngine [baseEntry] noMatchSel).2.titleCountFiltered = 0 ∧
     (runEngine [baseEntry] noMatchSel).2.categoryPct = [] ∧
     (runEngine [baseEntry] noMatchSel).2.moviePct = 0 ∧
     (runEngine [baseEntry] noMatchSel).2.tvPct = 0 ∧
     (runEngine [baseEntry] noMatchSel).2.byYear = [] ∧
     (runEngine [baseEntry] noMatchSel).2.topCountries = [] ∧
     (runEngine [baseEntry] noMatchSel).2.topGenres = [] ∧
     (runEngine [baseEntry] noMatchSel).2.topCountry = "N/A" ∧
     (runEngine [baseEntry] noMatchSel).2.topGenre = "N/A") :=
  ⟨by decide, empty_subset_safety [baseEntry] noMatchSel (by decide)⟩

theorem filterIf_sublist {c : Prop} [Decidable c] (l : List Entry)
    (p : Entry → Bool) : List.Sublist (if c then l.filter p else l) l := by
  split_ifs
  · exact List.filter_sublist l
  · exact List.Sublist.refl l

/-- C9: one engine pass returns the dataset unchanged, and the filtered
view is a sublist of the dataset: its entries are entries of the original
dataset, unmodified and in order. -/
theorem dataset_immutable (ds : List Entry) (sel : FilterSelection) :
    (runEngine ds sel).1 = ds ∧ List.Sublist (applyFilters ds sel) ds := by
  refine ⟨rfl, ?_⟩
  simp only [applyFilters]
  refine List.Sublist.trans (filterIf_sublist _ _) ?_
  refine List.Sublist.trans (filterIf_sublist _ _) ?_
  refine List.Sublist.trans (filterIf_sublist _ _) ?_
  refine List.Sublist.trans (filterIf_sublist _ _) ?_
  exact List.filter_sublist ds

/-- C10: a non-empty filtered subset always has a non-empty top-country
table, because every row contributes at least one exploded country. -/
theorem top_countries_nonempty (ds : List Entry) (sel : FilterSelection)
    (h : applyFilters ds sel ≠ []) :
    top_countries (applyFilters ds sel) ≠ [] := by
  set f := applyFilters ds sel with hf
  have h1 : explodedCountries f ≠ [] := by
    cases hc : f with
    | nil => exact absurd hc h
    | cons e rest =>
      simp only [explodedCountries, List.flatMap_cons]
      intro hz
      rcases List.append_eq_nil.mp hz with ⟨hz1, _⟩
      exact splitStrip_ne_nil e.country hz1
  have h2 : (explodedCountries f).dedup ≠ [] := by
    simpa [List.dedup_eq_nil] using h1
  have h3 : (value_counts (explodedCountries f)).length ≠ 0 := by
    unfold value_counts
    rw [(sortDesc_perm _).length_eq, List.length_map]
    simpa [List.length_eq_zero] using h2
  intro hc
  have := congrArg List.length hc
  rw [top_countries, List.length_take] at this
  simp only [List.length_nil, Nat.min_eq_zero_iff] at this
  rcases this with h10 | h0
  · omega
  · exact h3 h0

/-- Closed instance of C10 at a one-entry dataset and the all-pass
selection. -/
theorem top_countries_nonempty_witness :
    applyFilters [baseEntry] allSel ≠ [] ∧
    top_countries (applyFilters [baseEntry] allSel) ≠ [] :=
  ⟨by decide, top_countries_nonempty [baseEntry] allSel (by decide)⟩

/-- C7: normalization drops no row, a missing or unparseable release date
gives an absent date and an absent year, a missing country becomes
"Unknown", a missing rating becomes "Unrated", and category and type are
the stripped string coercions of their raw cells. -/
theorem normalizer_total (parseDate : String → Option Date)
    (rows : List RawRow) (r : RawRow) :
    (load_data parseDate rows).length = rows.length ∧
    ((∀ s, r.release_date = some s → parseDate s = none) →
      (normalizeRow parseDate r).release_date = none ∧
      (normalizeRow parseDate r).year = none) ∧
    (r.country = none → (normalizeRow parseDate r).country = "Unknown") ∧
    (r.rating = none → (normalizeRow parseDate r).rating = "Unrated") ∧
    (normalizeRow parseDate r).category = stripStr (toStr r.category) ∧
    (normalizeRow parseDate r).type = stripStr (toStr r.type) := by
  refine ⟨List.length_map rows _, ?_, ?_, ?_, rfl, rfl⟩
  · intro hp
    cases hrd : r.release_date with
    | none => simp [normalizeRow, hrd]
    | some s => simp [normalizeRow, hrd, hp s hrd]
  · intro hc
    simp [normalizeRow, hc]
  · intro hr
    simp [normalizeRow, hr]

/-- Raw row with a missing category, country and rating and an
unparseable release date. -/
def rawSample : RawRow :=
  { show_id := "s1", category := none, type := some " Dramas "
    country := none, rating := none, release_date := some "not a date"
    duration := none }

/-- Date parser that rejects every string, the worst case allowed for the
external date parser. -/
def noParse : String → Option Date := fun _ => none

/-- Closed instance of C7 on a row where every default fires. -/
theorem normalizer_total_witness :
    (load_data noParse [rawSample]).length = 1 ∧
    (normalizeRow noParse rawSample).release_date = none ∧
    (normalizeRow noParse rawSample).year = none ∧
    (normalizeRow noParse rawSample).country = "Unknown" ∧
    (normalizeRow noParse rawSample).rating = "Unrated" ∧
    (normalizeRow noParse rawSample).category = "nan" ∧
    (normalizeRow noParse rawSample).type = "Dramas" := by
  have h := normalizer_total noParse [rawSample] rawSample
  refine ⟨h.1, (h.2.1 ?_).1, (h.2.1 ?_).2, h.2.2.1 rfl, h.2.2.2.1 rfl,
    ?_, ?_⟩
  · intro s _
    rfl
  · intro s _
    rfl
  · rw [h.2.2.2.2.1]
    decide
  · rw [h.2.2.2.2.2]
    decide

/-- Entry with a missing year. -/
def noYearEntry : Entry := { baseEntry with year := none }

/-- Closed instance of C2: an entry with a missing year passes the year
filter for the range [-5, 5] exactly because 0 lies inside it. -/
theorem year_predicate_witness :
    yearPass noYearEntry.year (-5) 5 = true ↔ (-5 : Int) ≤ 0 ∧ (0 : Int) ≤ 5 :=
  (year_predicate_correct noYearEntry (-5) 5).2 rfl

/-- Entry whose country cell lists two countries. -/
def indiaEntry : Entry := { baseEntry with country := "United States, India" }

/-- Closed instance of C3 at the multi-country entry of the spec. -/
theorem substring_predicate_witness :
    (strContains indiaEntry.country "India" = true ↔
      ∃ l r, l ++ "India".data ++ r = indiaEntry.country.data) ∧
    (strContains indiaEntry.type "India" = true ↔
      ∃ l r, l ++ "India".data ++ r = indiaEntry.type.data) ∧
    strContains "United States, India" "India" = true :=
  substring_predicate_correct indiaEntry "India"

/-- Closed instance of C1 at a one-entry dataset. -/
theorem filter_conjunctive_witness :
    baseEntry ∈ applyFilters [baseEntry] allSel ↔
      baseEntry ∈ [baseEntry] ∧
      yearPass baseEntry.year allSel.yearLo allSel.yearHi = true ∧
      (allSel.category ≠ "All" → baseEntry.category = allSel.category) ∧
      (allSel.rating ≠ "All" → baseEntry.rating = allSel.rating) ∧
      (allSel.country ≠ "All" →
        strContains baseEntry.country allSel.country = true) ∧
      (allSel.genre ≠ "All" → strContains baseEntry.type allSel.genre = true) :=
  filter_conjunctive_correct [baseEntry] allSel baseEntry

/-- Closed instance of C9 at a one-entry dataset. -/
theorem dataset_immutable_witness :
    (runEngine [baseEntry] allSel).1 = [baseEntry] ∧
    List.Sublist (applyFilters [baseEntry] allSel) [baseEntry] :=
  dataset_immutable [baseEntry] allSel

end NetflixDash
